import Mathlib

/-!
Shallow embedding of the `wing` backtester core:
`backend/backtesting/backtesting.py`, `backend/backtesting/logic.py` and
`backend/backtesting/logic_stop_loss.py`.

Machine floats are modelled as `ℚ`.  The two places where IEEE special
values matter are modelled explicitly:

* in `calculate_rsi`, `rs = gain / loss` divides by zero when the trailing
  average loss is `0`; numpy yields `+inf` when the average gain is
  positive (so `rsi = 100 - 100/(1+inf) = 100`) and `NaN` on `0/0`
  (which then propagates through `rsi_ma` and is removed by `dropna`).
  An undefined (NaN) indicator entry is modelled as `none : Option ℚ`.

* `prices.diff()` puts NaN in its first row; `delta.where(delta > 0, 0)`
  replaces it by `0` because `NaN > 0` is false, so the gain/loss columns
  are NaN-free and start with `0`.

The historical-data fetch is an external collaborator: `run_backtest` is
embedded as a function of the already-fetched list of close prices, and
its `bars is None or len(bars) == 0` early exit is the `none` result.
Timestamps are represented by each bar's position in the raw feed (the
feed is indexed by strictly increasing timestamps).
-/

namespace Wing

/-- The gain column of `calculate_rsi`, read off at index `i`:
`(delta.where(delta > 0, 0))` for `delta = prices.diff()`.  Index `0` is
the NaN row of `diff`, replaced by `0` by `where`. -/
def gainAt (ps : List ℚ) (i : ℕ) : ℚ :=
  if i = 0 then 0
  else
    let d := ps.getD i 0 - ps.getD (i - 1) 0
    if 0 < d then d else 0

/-- The loss column of `calculate_rsi` at index `i`:
`(-delta.where(delta < 0, 0))`. -/
def lossAt (ps : List ℚ) (i : ℕ) : ℚ :=
  if i = 0 then 0
  else
    let d := ps.getD i 0 - ps.getD (i - 1) 0
    if d < 0 then -d else 0

/-- `gain.rolling(window=w).mean()` at an index `i` with `w ≤ i + 1`
(the gain column holds no NaN, so the window mean is just the sum of the
trailing `w` entries over `w`). -/
def avgGainVal (ps : List ℚ) (w i : ℕ) : ℚ :=
  (((List.range w).map fun j => gainAt ps (i + 1 - w + j)).sum) / w

/-- `loss.rolling(window=w).mean()` at an index `i` with `w ≤ i + 1`. -/
def avgLossVal (ps : List ℚ) (w i : ℕ) : ℚ :=
  (((List.range w).map fun j => lossAt ps (i + 1 - w + j)).sum) / w

/-- One entry of `rsi = 100 - (100 / (1 + rs))` with `rs = gain / loss`,
under IEEE float semantics for the division: `g/0 = +inf` for `0 < g`
(so the entry is `100`), `0/0 = NaN` (an undefined entry). -/
def rsiPoint (g l : ℚ) : Option ℚ :=
  if l = 0 then (if 0 < g then some 100 else none)
  else some (100 - 100 / (1 + g / l))

/-- The `rsi` column at index `i`: the rolling means are NaN for the
first `w - 1` indices (`min_periods` defaults to the window size). -/
def rsiAt (ps : List ℚ) (w i : ℕ) : Option ℚ :=
  if w ≤ i + 1 then rsiPoint (avgGainVal ps w i) (avgLossVal ps w i) else none

/-- `Backtester.calculate_rsi(prices, window)` as a column: one optional
RSI value per input price, `none` marking a NaN entry. -/
def calculate_rsi (ps : List ℚ) (w : ℕ) : List (Option ℚ) :=
  (List.range ps.length).map (rsiAt ps w)

/-- `bars['rsi'].rolling(window=mw).mean()` at index `i`: defined iff the
window fits and every one of the `mw` trailing RSI entries is defined. -/
def rsiMaAt (ps : List ℚ) (rw mw i : ℕ) : Option ℚ :=
  if mw ≤ i + 1 ∧ ∀ j < mw, (rsiAt ps rw (i + 1 - mw + j)).isSome then
    some ((((List.range mw).map fun j => (rsiAt ps rw (i + 1 - mw + j)).getD 0).sum) / mw)
  else none

/-- A surviving row of the indicator frame after `bars.dropna()`:
its original position `t` in the feed (the timestamp surrogate), the
close price and the two defined indicator values. -/
structure Row where
  t : ℕ
  close : ℚ
  rsi : ℚ
  rsi_ma : ℚ
  deriving Repr, DecidableEq

/-- The row of the indicator frame at feed index `i`, if it survives
`bars.dropna()` (both indicator entries defined). -/
def rowAt (ps : List ℚ) (rw mw i : ℕ) : Option Row :=
  match rsiAt ps rw i, rsiMaAt ps rw mw i with
  | some r, some m => some ⟨i, ps.getD i 0, r, m⟩
  | _, _ => none

/-- The indicator frame after `bars.dropna()`: the rows of the feed whose
`rsi` and `rsi_ma` entries are both defined, in feed order. -/
def simRows (ps : List ℚ) (rw mw : ℕ) : List Row :=
  (List.range ps.length).filterMap (rowAt ps rw mw)

/-- `logic.buy` (version 1, the enabled one). -/
def buy (rsi_prev rsi_now rsi_ma current_price prev_price : ℚ) : Bool :=
  let delta_price := current_price - prev_price
  if rsi_now > rsi_ma ∧ delta_price > 0 then true else false

/-- `logic.sell` (version 1, the enabled one). -/
def sell (rsi_prev rsi_now rsi_ma current_price prev_price : ℚ) : Bool :=
  let delta_price := current_price - prev_price
  if rsi_now < rsi_ma ∧ delta_price < 0 then true else false

/-- `logic_stop_loss.check_for_buy`. -/
def check_for_buy (rsi_now rsi_ma current_price prev_price : ℚ)
    (is_invested : Bool) : Bool :=
  let delta_price := current_price - prev_price
  if rsi_now > rsi_ma ∧ delta_price > 0 ∧ is_invested = false then true else false

/-- `logic_stop_loss.check_for_sell`.  `0.99` is exact in `ℚ`. -/
def check_for_sell (rsi_now rsi_ma current_price purchase_price : ℚ)
    (is_invested : Bool) : Bool :=
  if is_invested = false then false
  else
    let stop_loss_price := purchase_price * 0.99
    let take_profit_condition := rsi_now < rsi_ma
    if current_price < stop_loss_price ∨ take_profit_condition then true else false

inductive Action where
  | BUY : Action
  | SELL : Action
  deriving Repr, DecidableEq

/-- One dict appended to `trades`; `profit`/`profit_pct` keys are present
only on SELL dicts, absence modelled by `none`. -/
structure TradeRecord where
  t : ℕ
  action : Action
  price : ℚ
  amount : ℚ
  value : ℚ
  rsi : ℚ
  rsi_ma : ℚ
  delta_rsi : ℚ
  delta_price : ℚ
  profit : Option ℚ
  profit_pct : Option ℚ
  deriving Repr, DecidableEq

/-- The mutable loop state of `run_backtest`, plus a ghost `log` that
records, for each evaluated bar, its timestamp and the action taken
(`none` = no transition). -/
structure SimState where
  cash : ℚ
  position : ℚ
  position_value : ℚ
  in_position : Bool
  trades : List TradeRecord
  log : List (ℕ × Option Action)
  deriving Repr, DecidableEq

/-- The state before the loop: `cash = initial_capital`, no position,
no trades. -/
def initState (initial_capital : ℚ) : SimState :=
  { cash := initial_capital, position := 0, position_value := 0,
    in_position := false, trades := [], log := [] }

/-- The body of `for i in range(1, len(bars))` in `run_backtest`, with
`prev = bars.iloc[i-1]` and `cur = bars.iloc[i]`.  Python's float
division at a zero price would raise; `ℚ` yields `0` there — the claims
are evaluated on positive price feeds. -/
def stepBar (st : SimState) (prev cur : Row) : SimState :=
  let rsi_now := cur.rsi
  let rsi_prev := prev.rsi
  let rsi_ma_now := cur.rsi_ma
  let current_price := cur.close
  let prev_price := prev.close
  let delta_rsi := rsi_now - rsi_prev
  let delta_price := current_price - prev_price
  if !st.in_position && buy rsi_prev rsi_now rsi_ma_now current_price prev_price then
    let position := st.cash / current_price
    let tr : TradeRecord :=
      { t := cur.t, action := Action.BUY, price := current_price,
        amount := position, value := st.cash, rsi := rsi_now,
        rsi_ma := rsi_ma_now, delta_rsi := delta_rsi,
        delta_price := delta_price, profit := none, profit_pct := none }
    { cash := 0, position := position, position_value := st.cash,
      in_position := true, trades := st.trades ++ [tr],
      log := st.log ++ [(cur.t, some Action.BUY)] }
  else if st.in_position && sell rsi_prev rsi_now rsi_ma_now current_price prev_price then
    let cash := st.position * current_price
    let profit := cash - st.position_value
    let profit_pct := profit / st.position_value * 100
    let tr : TradeRecord :=
      { t := cur.t, action := Action.SELL, price := current_price,
        amount := st.position, value := cash, rsi := rsi_now,
        rsi_ma := rsi_ma_now, delta_rsi := delta_rsi,
        delta_price := delta_price, profit := some profit,
        profit_pct := some profit_pct }
    { cash := cash, position := 0, position_value := 0,
      in_position := false, trades := st.trades ++ [tr],
      log := st.log ++ [(cur.t, some Action.SELL)] }
  else
    { st with log := st.log ++ [(cur.t, none)] }

/-- `for i in range(1, len(bars))`: fold `stepBar` over consecutive row
pairs of the post-`dropna` frame. -/
def runLoop (st : SimState) : List Row → SimState
  | [] => st
  | [_] => st
  | prev :: cur :: rest => runLoop (stepBar st prev cur) (cur :: rest)

/-- All intermediate loop states, the initial one included (the state
before each bar is processed, and the final state). -/
def loopStates (st : SimState) : List Row → List SimState
  | [] => [st]
  | [_] => [st]
  | prev :: cur :: rest => st :: loopStates (stepBar st prev cur) (cur :: rest)

/-- The loop state after the last bar of the feed `ps`. -/
def simFinal (ps : List ℚ) (rw mw : ℕ) (initial_capital : ℚ) : SimState :=
  runLoop (initState initial_capital) (simRows ps rw mw)

/-- The trade ledger produced by a run. -/
def simTrades (ps : List ℚ) (rw mw : ℕ) (initial_capital : ℚ) : List TradeRecord :=
  (simFinal ps rw mw initial_capital).trades

/-- The ghost decision log of a run: one entry per evaluated bar. -/
def simLog (ps : List ℚ) (rw mw : ℕ) (initial_capital : ℚ) : List (ℕ × Option Action) :=
  (simFinal ps rw mw initial_capital).log

/-- Every loop state reached during a run. -/
def simStates (ps : List ℚ) (rw mw : ℕ) (initial_capital : ℚ) : List SimState :=
  loopStates (initState initial_capital) (simRows ps rw mw)

/-- `Backtester.run_backtest` on an already-fetched feed of close prices:
`none` is the `len(bars) == 0` early exit (`return None, None`); else the
`(trades, final_value)` pair, where `bars.iloc[-1]['close']` is only read
when still in position. -/
def run_backtest (ps : List ℚ) (rw mw : ℕ) (initial_capital : ℚ) :
    Option (List TradeRecord × ℚ) :=
  if ps.length = 0 then none
  else
    let bars := simRows ps rw mw
    let st := runLoop (initState initial_capital) bars
    let final_value := st.cash +
      (if st.in_position then
        st.position * (match bars.getLast? with | some b => b.close | none => 0)
      else 0)
    some (st.trades, final_value)

/-- Specification vocabulary: the action that strict BUY/SELL alternation
expects after the given one. -/
def altNext : Action → Action
  | Action.BUY => Action.SELL
  | Action.SELL => Action.BUY

/-- Specification vocabulary: the ledger strictly alternates starting
with the given expected action. -/
def altFrom : Action → List TradeRecord → Bool
  | _, [] => true
  | a, r :: rs => decide (r.action = a) && altFrom (altNext a) rs

/-- Specification vocabulary: the last ledger entry (if any) is a BUY. -/
def lastIsBuy (l : List TradeRecord) : Bool :=
  match l.getLast? with
  | some r => decide (r.action = Action.BUY)
  | none => false

/-- A strictly increasing test feed `1, 2, …, n`. -/
def feedLin (n : ℕ) : List ℚ :=
  (List.range n).map fun i => (i : ℚ) + 1

/-- A 29-bar test feed (rise, one dip, rise) whose run executes a BUY
at bar 27. -/
def feedTrade : List ℚ :=
  ((List.range 14).map fun i => (i : ℚ) + 1) ++ [13] ++
    ((List.range 14).map fun i => (i : ℚ) + 15)

end Wing

namespace Wing

/-! ### Basic helper lemmas -/

theorem getD_take_eq {α : Type} (l : List α) (k j : ℕ) (d : α) (h : j < k) :
    (l.take k).getD j d = l.getD j d := by
  rw [List.getD_eq_getElem?_getD, List.getD_eq_getElem?_getD, List.getElem?_take, if_pos h]

/-! ### C3, C4: the two strategy decision functions -/

/-- C3: the crossover buy decision used by the simulation loop — the
conjunction of the loop's `not in_position` guard with `logic.buy` — is
true iff not invested, `rsi_now > rsi_ma_now` and `price_now > price_prev`. -/
theorem C3_theorem (is_invested : Bool)
    (rsi_prev rsi_now rsi_ma_now price_now price_prev : ℚ) :
    (!is_invested && buy rsi_prev rsi_now rsi_ma_now price_now price_prev) = true ↔
      (is_invested = false ∧ rsi_ma_now < rsi_now ∧ price_prev < price_now) := by
  cases is_invested <;> simp [buy, sub_pos]

/-- C4: `check_for_sell` returns false when not invested, else true iff
`price_now < entry_price * 0.99` (stop-loss) or `rsi_now < rsi_ma`
(trend break). -/
theorem C4_theorem (rsi_now rsi_ma price_now entry_price : ℚ) (is_invested : Bool) :
    check_for_sell rsi_now rsi_ma price_now entry_price is_invested = true ↔
      (is_invested = true ∧ (price_now < entry_price * 0.99 ∨ rsi_now < rsi_ma)) := by
  cases is_invested <;> simp [check_for_sell]

/-! ### C5: zero average loss with positive average gain gives RSI 100 -/

/-- C5: at any index whose trailing average loss is `0` and average gain
positive, `calculate_rsi` yields a defined value equal to `100` (the
`x/0 = +inf` of the float division never escapes as an error). -/
theorem C5_theorem (ps : List ℚ) (w i : ℕ) (hi : i < ps.length) (hw : w ≤ i + 1)
    (hloss : avgLossVal ps w i = 0) (hgain : 0 < avgGainVal ps w i) :
    (calculate_rsi ps w).getD i none = some 100 := by
  unfold calculate_rsi
  rw [List.getD_eq_getElem?_getD, List.getElem?_map, List.getElem?_range hi]
  simp [rsiAt, hw, rsiPoint, hloss, hgain]

/-- Witness for C5: the strictly increasing 14-bar feed has average loss
`0` and average gain `13/14` at index 13, and RSI `100` there. -/
theorem C5_witness :
    13 < (feedLin 14).length ∧ 14 ≤ 13 + 1 ∧ avgLossVal (feedLin 14) 14 13 = 0 ∧
      0 < avgGainVal (feedLin 14) 14 13 ∧
      (calculate_rsi (feedLin 14) 14).getD 13 none = some 100 :=
  ⟨by with_unfolding_all decide, by decide, by with_unfolding_all decide,
    by with_unfolding_all decide,
    C5_theorem (feedLin 14) 14 13 (by with_unfolding_all decide) (by decide)
      (by with_unfolding_all decide) (by with_unfolding_all decide)⟩

end Wing

namespace Wing

/-! ### Loop structure lemmas -/

theorem stepBar_log_append (st : SimState) (prev cur : Row) :
    ∃ d, (stepBar st prev cur).log = st.log ++ [(cur.t, d)] := by
  dsimp only [stepBar]
  split
  · exact ⟨some Action.BUY, rfl⟩
  split
  · exact ⟨some Action.SELL, rfl⟩
  · exact ⟨none, rfl⟩

theorem stepBar_trades_append (st : SimState) (prev cur : Row) :
    ∃ tN, (stepBar st prev cur).trades = st.trades ++ tN ∧ ∀ r ∈ tN, r.t = cur.t := by
  dsimp only [stepBar]
  split
  · refine ⟨[_], rfl, ?_⟩
    intro r hr
    rw [List.mem_singleton] at hr
    subst hr
    rfl
  split
  · refine ⟨[_], rfl, ?_⟩
    intro r hr
    rw [List.mem_singleton] at hr
    subst hr
    rfl
  · exact ⟨[], by simp, by simp⟩

theorem runLoop_ind (P : SimState → Prop) :
    ∀ (rows : List Row) (st : SimState),
      (∀ st' prev cur, cur ∈ rows → P st' → P (stepBar st' prev cur)) →
      P st → P (runLoop st rows)
  | [], _, _, h => h
  | [_], _, _, h => h
  | a :: b :: l, st, hstep, h =>
    runLoop_ind P (b :: l) (stepBar st a b)
      (fun st' p c hc hp => hstep st' p c (List.mem_cons_of_mem a hc) hp)
      (hstep st a b (List.mem_cons_of_mem a (List.mem_cons_self b l)) h)

theorem loopStates_mem_ind (P : SimState → Prop) :
    ∀ (rows : List Row) (st : SimState),
      (∀ st' prev cur, P st' → P (stepBar st' prev cur)) →
      P st → ∀ s ∈ loopStates st rows, P s
  | [], st, _, h, s, hs => by
    rw [show loopStates st [] = [st] from rfl, List.mem_singleton] at hs
    exact hs ▸ h
  | [x], st, _, h, s, hs => by
    rw [show loopStates st [x] = [st] from rfl, List.mem_singleton] at hs
    exact hs ▸ h
  | a :: b :: l, st, hstep, h, s, hs => by
    rw [show loopStates st (a :: b :: l) = st :: loopStates (stepBar st a b) (b :: l)
      from rfl, List.mem_cons] at hs
    rcases hs with rfl | hs
    · exact h
    · exact loopStates_mem_ind P (b :: l) (stepBar st a b) hstep (hstep st a b h) s hs

theorem runLoop_log_map :
    ∀ (rows : List Row) (st : SimState),
      ((runLoop st rows).log).map Prod.fst = st.log.map Prod.fst ++ rows.tail.map Row.t
  | [], st => by simp [runLoop]
  | [x], st => by simp [runLoop]
  | a :: b :: l, st => by
    show ((runLoop (stepBar st a b) (b :: l)).log).map Prod.fst = _
    rw [runLoop_log_map (b :: l) (stepBar st a b)]
    obtain ⟨d, hd⟩ := stepBar_log_append st a b
    rw [hd, List.map_append]
    simp

theorem runLoop_extends :
    ∀ (rows : List Row) (st : SimState),
      ∃ tN lN, (runLoop st rows).trades = st.trades ++ tN ∧
        (runLoop st rows).log = st.log ++ lN ∧
        (∀ r ∈ tN, ∃ row ∈ rows.tail, r.t = row.t) ∧
        (∀ e ∈ lN, ∃ row ∈ rows.tail, e.1 = row.t)
  | [], st => ⟨[], [], by simp [runLoop], by simp [runLoop], by simp, by simp⟩
  | [x], st => ⟨[], [], by simp [runLoop], by simp [runLoop], by simp, by simp⟩
  | a :: b :: l, st => by
    obtain ⟨tN, lN, h1, h2, h3, h4⟩ := runLoop_extends (b :: l) (stepBar st a b)
    obtain ⟨tS, hS, hSt⟩ := stepBar_trades_append st a b
    obtain ⟨d, hd⟩ := stepBar_log_append st a b
    refine ⟨tS ++ tN, (b.t, d) :: lN, ?_, ?_, ?_, ?_⟩
    · show (runLoop (stepBar st a b) (b :: l)).trades = _
      rw [h1, hS, List.append_assoc]
    · show (runLoop (stepBar st a b) (b :: l)).log = _
      rw [h2, hd]
      simp
    · intro r hr
      rcases List.mem_append.mp hr with hr | hr
      · exact ⟨b, List.mem_cons_self b l, hSt r hr⟩
      · obtain ⟨row, hrow, ht⟩ := h3 r hr
        exact ⟨row, List.mem_cons_of_mem b hrow, ht⟩
    · intro e he
      rcases List.mem_cons.mp he with rfl | he
      · exact ⟨b, List.mem_cons_self b l, rfl⟩
      · obtain ⟨row, hrow, ht⟩ := h4 e he
        exact ⟨row, List.mem_cons_of_mem b hrow, ht⟩

theorem runLoop_append :
    ∀ (l : List Row) (a : Row) (rows₂ : List Row) (st : SimState),
      runLoop st (l ++ a :: rows₂) = runLoop (runLoop st (l ++ [a])) (a :: rows₂)
  | [], _, _, _ => rfl
  | [_], _, _, _ => rfl
  | x :: y :: ys, a, rows₂, st => by
    show runLoop (stepBar st x y) ((y :: ys) ++ a :: rows₂) = _
    rw [runLoop_append (y :: ys) a rows₂ (stepBar st x y)]
    rfl

end Wing

namespace Wing

/-! ### C2: which bars are evaluated by the transition rule -/

/-- C2 counterexample: on the 28-bar increasing feed the frame has two
fully-defined-indicator bars (t = 26, 27) but the decision log covers
only t = 27 — the first fully-defined bar is never evaluated, refuting
the claim that evaluation starts at the first such bar. -/
theorem C2_counterexample :
    ¬ ((simLog (feedLin 28) 14 14 100).map Prod.fst =
        (simRows (feedLin 28) 14 14).map Row.t) := by
  with_unfolding_all decide

/-- C2 as amended: the transition rule is evaluated exactly once per
fully-defined-indicator bar in chronological order starting at the
SECOND such bar; the first serves only as the previous-bar reference. -/
theorem C2_theorem (ps : List ℚ) (rw mw : ℕ) (cap : ℚ) :
    (simLog ps rw mw cap).map Prod.fst = ((simRows ps rw mw).tail).map Row.t := by
  unfold simLog simFinal
  rw [runLoop_log_map]
  simp [initState]

/-! ### C1: short feeds, the empty-data exit and the loop bound -/

/-- C1 counterexample: the 28-bar increasing feed leaves 2 (< 2·14)
rows after `dropna`, yet `run_backtest` neither reports the empty-data
condition nor skips the loop (one bar is evaluated). -/
theorem C1_counterexample :
    ¬ ((simRows (feedLin 28) 14 14).length < 2 * 14 →
        run_backtest (feedLin 28) 14 14 100 = none ∧
          simLog (feedLin 28) 14 14 100 = []) := by
  with_unfolding_all decide

/-- C1 as amended: the no-result (empty-data) exit fires iff the raw
feed is empty; with at most one surviving row the loop body never runs
but the function still returns an empty ledger with
`final_value = initial_capital`; the number of evaluated bars is the
number of surviving rows minus one (so a 14/14-window feed needs
`2*window` raw bars, leaving 2 rows, for the loop to run at all). -/
theorem C1_theorem (ps : List ℚ) (rw mw : ℕ) (cap : ℚ) :
    (run_backtest ps rw mw cap = none ↔ ps = []) ∧
      (ps ≠ [] → (simRows ps rw mw).length ≤ 1 →
        run_backtest ps rw mw cap = some ([], cap)) ∧
      (simLog ps rw mw cap).length = (simRows ps rw mw).length - 1 := by
  refine ⟨?_, ?_, ?_⟩
  · by_cases h : ps.length = 0
    · unfold run_backtest
      rw [if_pos h]
      simp [List.length_eq_zero.mp h]
    · unfold run_backtest
      rw [if_neg h]
      constructor
      · intro hc
        exact (Option.some_ne_none _ hc).elim
      · intro hc
        exact absurd (by rw [hc]; rfl) h
  · intro hne hlen
    have h0 : ¬ ps.length = 0 := fun h => hne (List.length_eq_zero.mp h)
    have hrl : runLoop (initState cap) (simRows ps rw mw) = initState cap := by
      cases hr : simRows ps rw mw with
      | nil => rfl
      | cons a l =>
        cases l with
        | nil => rfl
        | cons b m => rw [hr] at hlen; simp at hlen
    unfold run_backtest
    rw [if_neg h0]
    simp only [hrl]
    simp [initState]
  · have h := runLoop_log_map (simRows ps rw mw) (initState cap)
    have hm : (simLog ps rw mw cap).length = ((simLog ps rw mw cap).map Prod.fst).length :=
      (List.length_map _ _).symm
    rw [hm]
    unfold simLog simFinal
    rw [h]
    simp [initState]

/-- Witness for C1: the 27-bar increasing feed is nonempty, leaves a
single row, and returns an empty ledger with the initial capital. -/
theorem C1_witness :
    feedLin 27 ≠ [] ∧ (simRows (feedLin 27) 14 14).length ≤ 1 ∧
      run_backtest (feedLin 27) 14 14 100 = some ([], 100) :=
  ⟨by with_unfolding_all decide, by with_unfolding_all decide,
    (C1_theorem (feedLin 27) 14 14 100).2.1 (by with_unfolding_all decide)
      (by with_unfolding_all decide)⟩

/-! ### C10: cash/position exclusivity -/

/-- C10: at every point of the simulation loop (before and after each
bar), being in a position forces `cash = 0`, and being flat forces
`position = 0` and `position_value = 0`: the run never holds cash and a
position simultaneously. -/
theorem C10_theorem (ps : List ℚ) (rw mw : ℕ) (cap : ℚ) (st : SimState)
    (hmem : st ∈ simStates ps rw mw cap) :
    (st.in_position = true → st.cash = 0) ∧
      (st.in_position = false → st.position = 0 ∧ st.position_value = 0) := by
  refine loopStates_mem_ind
    (fun s => (s.in_position = true → s.cash = 0) ∧
      (s.in_position = false → s.position = 0 ∧ s.position_value = 0))
    (simRows ps rw mw) (initState cap) ?_ ?_ st hmem
  · intro st' prev cur h
    dsimp only [stepBar]
    split
    · exact ⟨fun _ => rfl, by simp⟩
    split
    · exact ⟨by simp, fun _ => ⟨rfl, rfl⟩⟩
    · exact h
  · exact ⟨by simp [initState], fun _ => ⟨rfl, rfl⟩⟩

/-- Witness for C10 at the initial state of a run on the empty feed. -/
theorem C10_witness :
    (initState 100).position = 0 ∧ (initState 100).position_value = 0 :=
  (C10_theorem [] 14 14 100 (initState 100) (by with_unfolding_all decide)).2 rfl

end Wing

namespace Wing

/-! ### C6: strict BUY/SELL alternation of the trade ledger -/

theorem altFrom_concat (a : Action) :
    ∀ (l : List TradeRecord) (r : TradeRecord),
      altFrom a (l ++ [r]) =
        (altFrom a l &&
          decide (r.action = match l.getLast? with
            | none => a
            | some x => altNext x.action))
  | [], r => by simp [altFrom]
  | x :: l', r => by
    rw [show altFrom a ((x :: l') ++ [r]) =
      (decide (x.action = a) && altFrom (altNext a) (l' ++ [r])) from rfl]
    rw [altFrom_concat (altNext a) l' r]
    cases l' with
    | nil => by_cases hx : x.action = a <;> simp [hx, altFrom]
    | cons y m =>
      rw [show (x :: y :: m).getLast? = (y :: m).getLast? from List.getLast?_cons_cons]
      cases hz : (y :: m).getLast? with
      | none => simp at hz
      | some z => simp [altFrom, Bool.and_assoc]

theorem stepBar_alt (st : SimState) (prev cur : Row)
    (h : altFrom Action.BUY st.trades = true ∧ st.in_position = lastIsBuy st.trades) :
    altFrom Action.BUY (stepBar st prev cur).trades = true ∧
      (stepBar st prev cur).in_position = lastIsBuy (stepBar st prev cur).trades := by
  obtain ⟨h1, h2⟩ := h
  dsimp only [stepBar]
  split
  next hguard =>
    have hpos : st.in_position = false := by
      cases hp : st.in_position
      · rfl
      · rw [hp] at hguard; simp at hguard
    constructor
    · rw [altFrom_concat, h1]
      have hlast : lastIsBuy st.trades = false := by rw [← h2, hpos]
      unfold lastIsBuy at hlast
      cases hl : st.trades.getLast? with
      | none => simp [hl]
      | some x =>
        rw [hl] at hlast
        have hlast' : decide (x.action = Action.BUY) = false := hlast
        have hx : x.action = Action.SELL := by
          cases hxa : x.action
          · rw [hxa] at hlast'; simp at hlast'
          · rfl
        simp [hl, hx, altNext]
    · show true = lastIsBuy (st.trades ++ [_])
      unfold lastIsBuy
      rw [List.getLast?_concat]
      simp
  next =>
    split
    next hguard2 =>
      have hpos : st.in_position = true := by
        cases hp : st.in_position
        · rw [hp] at hguard2; simp at hguard2
        · rfl
      constructor
      · rw [altFrom_concat, h1]
        have hlast : lastIsBuy st.trades = true := by rw [← h2, hpos]
        unfold lastIsBuy at hlast
        cases hl : st.trades.getLast? with
        | none => rw [hl] at hlast; simp at hlast
        | some x =>
          rw [hl] at hlast
          have hx : x.action = Action.BUY := of_decide_eq_true hlast
          simp [hl, hx, altNext]
      · show false = lastIsBuy (st.trades ++ [_])
        unfold lastIsBuy
        rw [List.getLast?_concat]
        simp
    next =>
      exact ⟨h1, h2⟩

/-- C6: the trade ledger strictly alternates BUY, SELL, BUY, … (its
first record, if any, is a BUY); and the loop body appends a BUY record
only from a flat state and a SELL record only from an invested state. -/
theorem C6_theorem (ps : List ℚ) (rw mw : ℕ) (cap : ℚ) :
    altFrom Action.BUY (simTrades ps rw mw cap) = true ∧
      ∀ (st : SimState) (prev cur : Row) (tr : TradeRecord),
        (stepBar st prev cur).trades = st.trades ++ [tr] →
        (tr.action = Action.BUY → st.in_position = false) ∧
          (tr.action = Action.SELL → st.in_position = true) := by
  constructor
  · exact (runLoop_ind
      (fun s => altFrom Action.BUY s.trades = true ∧ s.in_position = lastIsBuy s.trades)
      (simRows ps rw mw) (initState cap)
      (fun st' p c _ h => stepBar_alt st' p c h) ⟨rfl, rfl⟩).1
  · intro st prev cur tr htr
    dsimp only [stepBar] at htr
    split at htr
    next hguard =>
      have hpos : st.in_position = false := by
        cases hp : st.in_position
        · rfl
        · rw [hp] at hguard; simp at hguard
      have htr' := List.append_cancel_left htr
      rw [List.cons_eq_cons] at htr'
      obtain ⟨rfl, -⟩ := htr'
      exact ⟨fun _ => hpos, fun hS => by simp at hS⟩
    next =>
      split at htr
      next hguard2 =>
        have hpos : st.in_position = true := by
          cases hp : st.in_position
          · rw [hp] at hguard2; simp at hguard2
          · rfl
        have htr' := List.append_cancel_left htr
        rw [List.cons_eq_cons] at htr'
        obtain ⟨rfl, -⟩ := htr'
        exact ⟨fun hB => by simp at hB, fun _ => hpos⟩
      next =>
        simp at htr

/-- Witness for C6: the run on the 28-bar increasing feed has an
alternating (here empty) ledger, and a concrete BUY append forces the
pre-state to be flat. -/
theorem C6_witness :
    altFrom Action.BUY (simTrades (feedLin 28) 14 14 100) = true ∧
      (initState 100).in_position = false :=
  ⟨(C6_theorem (feedLin 28) 14 14 100).1,
    ((C6_theorem (feedLin 28) 14 14 100).2 (initState 100) ⟨0, 1, 50, 10⟩ ⟨1, 2, 60, 50⟩
      { t := 1, action := Action.BUY, price := 2, amount := 50, value := 100, rsi := 60,
        rsi_ma := 50, delta_rsi := 10, delta_price := 1, profit := none, profit_pct := none }
      (by with_unfolding_all decide)).1 rfl⟩

end Wing

namespace Wing

/-! ### C7: full liquidation on a sell signal; profit fields on SELL only -/

theorem stepBar_profit_pred (st : SimState) (prev cur : Row)
    (h : (st.trades.all fun r =>
      (r.profit.isSome == decide (r.action = Action.SELL)) &&
        (r.profit_pct.isSome == decide (r.action = Action.SELL))) = true) :
    ((stepBar st prev cur).trades.all fun r =>
      (r.profit.isSome == decide (r.action = Action.SELL)) &&
        (r.profit_pct.isSome == decide (r.action = Action.SELL))) = true := by
  dsimp only [stepBar]
  split
  · rw [List.all_append]
    simp [h]
  split
  · rw [List.all_append]
    simp [h]
  · exact h

theorem rowAt_close (ps : List ℚ) (rw mw i : ℕ) (r : Row)
    (h : rowAt ps rw mw i = some r) : r.close = ps.getD i 0 := by
  unfold rowAt at h
  cases h1 : rsiAt ps rw i with
  | none =>
    rw [h1] at h
    exact Option.noConfusion h
  | some x =>
    cases h2 : rsiMaAt ps rw mw i with
    | none =>
      rw [h1, h2] at h
      exact Option.noConfusion h
    | some y =>
      rw [h1, h2] at h
      cases h
      rfl

theorem simRows_close_pos (ps : List ℚ) (rw mw : ℕ) (hps : ∀ x ∈ ps, 0 < x) :
    ∀ row ∈ simRows ps rw mw, 0 < row.close := by
  intro row hrow
  obtain ⟨i, hi, hsome⟩ := List.mem_filterMap.mp hrow
  have hi' : i < ps.length := List.mem_range.mp hi
  rw [rowAt_close ps rw mw i row hsome, List.getD_eq_getElem ps 0 hi']
  exact hps _ (List.getElem_mem hi')

theorem loopStates_ind_mem (P : SimState → Prop) :
    ∀ (rows : List Row) (st : SimState),
      (∀ st' prev cur, cur ∈ rows → P st' → P (stepBar st' prev cur)) →
      P st → ∀ s ∈ loopStates st rows, P s
  | [], st, _, h, s, hs => by
    rw [show loopStates st [] = [st] from rfl, List.mem_singleton] at hs
    exact hs ▸ h
  | [x], st, _, h, s, hs => by
    rw [show loopStates st [x] = [st] from rfl, List.mem_singleton] at hs
    exact hs ▸ h
  | a :: b :: l, st, hstep, h, s, hs => by
    rw [show loopStates st (a :: b :: l) = st :: loopStates (stepBar st a b) (b :: l)
      from rfl, List.mem_cons] at hs
    rcases hs with rfl | hs
    · exact h
    · exact loopStates_ind_mem P (b :: l) (stepBar st a b)
        (fun st' p cu hc hp => hstep st' p cu (List.mem_cons_of_mem a hc) hp)
        (hstep st a b (List.mem_cons_of_mem a (List.mem_cons_self b l)) h) s hs

/-- C7: from an invested state with `position = q` and
`position_value = q * e` (the cash spent at entry price `e`), a firing
sell signal performs a full liquidation — cash becomes `q * price_now`,
the position is cleared, and exactly one SELL record is appended whose
`profit` is `cash - q*e` and `profit_pct` is `profit/(q*e) * 100`;
in every ledger the `profit`/`profit_pct` fields are present exactly on
SELL records; and (grounding `q * e`) on a positive-price feed every
reached invested state has `position_value = position * r.price` for a
BUY record `r` of its ledger — the code's `position_value` is exactly
quantity times entry price. -/
theorem C7_theorem :
    (∀ (st : SimState) (prev cur : Row) (q e : ℚ),
      st.in_position = true → st.position = q → st.position_value = q * e →
      sell prev.rsi cur.rsi cur.rsi_ma cur.close prev.close = true →
      stepBar st prev cur =
        { cash := q * cur.close, position := 0, position_value := 0,
          in_position := false,
          trades := st.trades ++
            [{ t := cur.t, action := Action.SELL, price := cur.close, amount := q,
               value := q * cur.close, rsi := cur.rsi, rsi_ma := cur.rsi_ma,
               delta_rsi := cur.rsi - prev.rsi, delta_price := cur.close - prev.close,
               profit := some (q * cur.close - q * e),
               profit_pct := some ((q * cur.close - q * e) / (q * e) * 100) }],
          log := st.log ++ [(cur.t, some Action.SELL)] }) ∧
      (∀ (ps : List ℚ) (rw mw : ℕ) (cap : ℚ),
        ((simTrades ps rw mw cap).all fun r =>
          (r.profit.isSome == decide (r.action = Action.SELL)) &&
            (r.profit_pct.isSome == decide (r.action = Action.SELL))) = true) ∧
      ∀ (ps : List ℚ) (rw mw : ℕ) (cap : ℚ), (∀ x ∈ ps, 0 < x) →
        ∀ st ∈ simStates ps rw mw cap, st.in_position = true →
          ∃ r ∈ st.trades, r.action = Action.BUY ∧
            st.position_value = st.position * r.price := by
  refine ⟨?_, ?_, ?_⟩
  · intro st prev cur q e hpos hq he hsell
    dsimp only [stepBar]
    rw [hpos, hsell]
    simp only [Bool.not_true, Bool.false_and, Bool.true_and, Bool.false_eq_true,
      if_false, if_true]
    rw [hq, he]
  · intro ps rw mw cap
    exact runLoop_ind
      (fun s => (s.trades.all fun r =>
        (r.profit.isSome == decide (r.action = Action.SELL)) &&
          (r.profit_pct.isSome == decide (r.action = Action.SELL))) = true)
      (simRows ps rw mw) (initState cap)
      (fun st' p c _ h => stepBar_profit_pred st' p c h) rfl
  · intro ps rw mw cap hpos st hmem
    refine loopStates_ind_mem
      (fun s => s.in_position = true → ∃ r ∈ s.trades, r.action = Action.BUY ∧
        s.position_value = s.position * r.price)
      (simRows ps rw mw) (initState cap) ?_ ?_ st hmem
    · intro st' prev cur hcur h
      have hclose : 0 < cur.close := simRows_close_pos ps rw mw hpos cur hcur
      dsimp only [stepBar]
      split
      · intro _
        refine ⟨_, List.mem_append_right _ (List.mem_singleton_self _), rfl, ?_⟩
        exact (div_mul_cancel₀ st'.cash (ne_of_gt hclose)).symm
      split
      · intro hc
        exact absurd hc (by simp)
      · intro hc
        obtain ⟨r, hr, ha, hv⟩ := h hc
        exact ⟨r, hr, ha, hv⟩
    · intro hc
      exact absurd hc (by simp [initState])

set_option maxRecDepth 100000 in
/-- Witness for C7: a concrete liquidation (2 units bought for 6, sold
at price 4), the profit-field shape of a concrete run's ledger, and the
invested state reached by the 29-bar trading feed. -/
theorem C7_witness :
    stepBar ⟨0, 2, 6, true, [], []⟩ ⟨0, 5, 50, 0⟩ ⟨1, 4, 40, 45⟩ =
      { cash := 2 * 4, position := 0, position_value := 0, in_position := false,
        trades :=
          [{ t := 1, action := Action.SELL, price := 4, amount := 2,
             value := 2 * 4, rsi := 40, rsi_ma := 45, delta_rsi := 40 - 50,
             delta_price := 4 - 5, profit := some (2 * 4 - 2 * 3),
             profit_pct := some ((2 * 4 - 2 * 3) / (2 * 3) * 100) }],
        log := [(1, some Action.SELL)] } ∧
      (((simTrades (feedLin 28) 14 14 100).all fun r =>
        (r.profit.isSome == decide (r.action = Action.SELL)) &&
          (r.profit_pct.isSome == decide (r.action = Action.SELL))) = true) ∧
      ∃ r ∈ ((simStates feedTrade 14 14 100).getD 1 (initState 100)).trades,
        r.action = Action.BUY ∧
          ((simStates feedTrade 14 14 100).getD 1 (initState 100)).position_value =
            ((simStates feedTrade 14 14 100).getD 1 (initState 100)).position * r.price :=
  ⟨C7_theorem.1 ⟨0, 2, 6, true, [], []⟩ ⟨0, 5, 50, 0⟩ ⟨1, 4, 40, 45⟩ 2 3 rfl rfl
      (by with_unfolding_all decide) (by with_unfolding_all decide),
    C7_theorem.2.1 (feedLin 28) 14 14 100,
    C7_theorem.2.2 feedTrade 14 14 100 (by with_unfolding_all decide)
      ((simStates feedTrade 14 14 100).getD 1 (initState 100))
      (by
        have h : 1 < (simStates feedTrade 14 14 100).length := by
          with_unfolding_all decide
        rw [List.getD_eq_getElem _ _ h]
        exact List.getElem_mem h)
      (by with_unfolding_all decide)⟩

end Wing

namespace Wing

/-! ### C8: constant-price feed produces no trades -/

theorem getD_replicate (n : ℕ) (c : ℚ) (j : ℕ) (h : j < n) :
    (List.replicate n c).getD j 0 = c := by
  rw [List.getD_eq_getElem _ _ (by simpa using h)]
  simp

theorem gainAt_replicate (n : ℕ) (c : ℚ) (i : ℕ) (h : i < n) :
    gainAt (List.replicate n c) i = 0 := by
  unfold gainAt
  by_cases h0 : i = 0
  · simp [h0]
  · rw [if_neg h0, getD_replicate n c i h, getD_replicate n c (i - 1) (by omega)]
    simp

theorem lossAt_replicate (n : ℕ) (c : ℚ) (i : ℕ) (h : i < n) :
    lossAt (List.replicate n c) i = 0 := by
  unfold lossAt
  by_cases h0 : i = 0
  · simp [h0]
  · rw [if_neg h0, getD_replicate n c i h, getD_replicate n c (i - 1) (by omega)]
    simp

theorem rsiAt_replicate (n : ℕ) (c : ℚ) (w i : ℕ) (h : i < n) :
    rsiAt (List.replicate n c) w i = none := by
  unfold rsiAt
  by_cases hw : w ≤ i + 1
  · rw [if_pos hw]
    have hg : avgGainVal (List.replicate n c) w i = 0 := by
      unfold avgGainVal
      have hz : ∀ x ∈ (List.range w).map
          (fun j => gainAt (List.replicate n c) (i + 1 - w + j)), x = 0 := by
        intro x hx
        obtain ⟨j, hj, rfl⟩ := List.mem_map.mp hx
        have hj' := List.mem_range.mp hj
        exact gainAt_replicate n c _ (by omega)
      rw [List.sum_eq_zero hz, zero_div]
    have hl : avgLossVal (List.replicate n c) w i = 0 := by
      unfold avgLossVal
      have hz : ∀ x ∈ (List.range w).map
          (fun j => lossAt (List.replicate n c) (i + 1 - w + j)), x = 0 := by
        intro x hx
        obtain ⟨j, hj, rfl⟩ := List.mem_map.mp hx
        have hj' := List.mem_range.mp hj
        exact lossAt_replicate n c _ (by omega)
      rw [List.sum_eq_zero hz, zero_div]
    rw [hg, hl]
    simp [rsiPoint]
  · rw [if_neg hw]

theorem simRows_replicate (n : ℕ) (c : ℚ) (rw mw : ℕ) :
    simRows (List.replicate n c) rw mw = [] := by
  unfold simRows
  rw [List.filterMap_eq_nil_iff]
  intro i hi
  have hi' : i < n := by
    have := List.mem_range.mp hi
    simpa using this
  unfold rowAt
  rw [rsiAt_replicate n c rw i hi']

/-- C8: a constant-close feed of any positive length yields an empty
trade ledger and `final_value = initial_capital` (every RSI entry is the
NaN of `0/0`, so `dropna` leaves nothing to iterate). -/
theorem C8_theorem (n : ℕ) (c cap : ℚ) (rw mw : ℕ) (h : n ≠ 0) :
    run_backtest (List.replicate n c) rw mw cap = some ([], cap) := by
  unfold run_backtest
  rw [if_neg (by simpa using h)]
  simp only [simRows_replicate]
  simp [runLoop, initState]

/-- Witness for C8 on a 3-bar constant feed. -/
theorem C8_witness :
    run_backtest (List.replicate 3 (5 : ℚ)) 14 14 100 = some ([], 100) :=
  C8_theorem 3 5 100 14 14 (by decide)

end Wing

namespace Wing

/-! ### C9: no look-ahead — the pipeline is prefix-stable -/

theorem gainAt_take (ps : List ℚ) (k i : ℕ) (h : i < k) :
    gainAt (ps.take k) i = gainAt ps i := by
  unfold gainAt
  by_cases h0 : i = 0
  · simp [h0]
  · rw [if_neg h0, if_neg h0, getD_take_eq ps k i 0 h, getD_take_eq ps k (i - 1) 0 (by omega)]

theorem lossAt_take (ps : List ℚ) (k i : ℕ) (h : i < k) :
    lossAt (ps.take k) i = lossAt ps i := by
  unfold lossAt
  by_cases h0 : i = 0
  · simp [h0]
  · rw [if_neg h0, if_neg h0, getD_take_eq ps k i 0 h, getD_take_eq ps k (i - 1) 0 (by omega)]

theorem rsiAt_take (ps : List ℚ) (w k i : ℕ) (h : i < k) :
    rsiAt (ps.take k) w i = rsiAt ps w i := by
  unfold rsiAt
  by_cases hw : w ≤ i + 1
  · rw [if_pos hw, if_pos hw]
    have hg : avgGainVal (ps.take k) w i = avgGainVal ps w i := by
      unfold avgGainVal
      have hmap : ((List.range w).map fun j => gainAt (ps.take k) (i + 1 - w + j)) =
          ((List.range w).map fun j => gainAt ps (i + 1 - w + j)) := by
        apply List.map_congr_left
        intro j hj
        have hj' := List.mem_range.mp hj
        exact gainAt_take ps k _ (by omega)
      rw [hmap]
    have hl : avgLossVal (ps.take k) w i = avgLossVal ps w i := by
      unfold avgLossVal
      have hmap : ((List.range w).map fun j => lossAt (ps.take k) (i + 1 - w + j)) =
          ((List.range w).map fun j => lossAt ps (i + 1 - w + j)) := by
        apply List.map_congr_left
        intro j hj
        have hj' := List.mem_range.mp hj
        exact lossAt_take ps k _ (by omega)
      rw [hmap]
    rw [hg, hl]
  · rw [if_neg hw, if_neg hw]

theorem rsiMaAt_take (ps : List ℚ) (rw mw k i : ℕ) (h : i < k) :
    rsiMaAt (ps.take k) rw mw i = rsiMaAt ps rw mw i := by
  unfold rsiMaAt
  by_cases hmw : mw ≤ i + 1
  · have hc : ∀ j, j < mw →
        rsiAt (ps.take k) rw (i + 1 - mw + j) = rsiAt ps rw (i + 1 - mw + j) := by
      intro j hj
      exact rsiAt_take ps rw k _ (by omega)
    have hcond : (mw ≤ i + 1 ∧ ∀ j < mw, (rsiAt (ps.take k) rw (i + 1 - mw + j)).isSome) ↔
        (mw ≤ i + 1 ∧ ∀ j < mw, (rsiAt ps rw (i + 1 - mw + j)).isSome) := by
      apply and_congr_right
      intro _
      apply forall_congr'
      intro j
      apply imp_congr_right
      intro hj
      rw [hc j hj]
    have hsum : ((List.range mw).map fun j => (rsiAt (ps.take k) rw (i + 1 - mw + j)).getD 0) =
        ((List.range mw).map fun j => (rsiAt ps rw (i + 1 - mw + j)).getD 0) := by
      apply List.map_congr_left
      intro j hj
      rw [hc j (List.mem_range.mp hj)]
    rw [if_congr hcond (by rw [hsum]) rfl]
  · rw [if_neg (fun hcon => hmw hcon.1), if_neg (fun hcon => hmw hcon.1)]

theorem rowAt_take (ps : List ℚ) (rw mw k i : ℕ) (h : i < k) :
    rowAt (ps.take k) rw mw i = rowAt ps rw mw i := by
  unfold rowAt
  rw [rsiAt_take ps rw k i h, rsiMaAt_take ps rw mw k i h, getD_take_eq ps k i 0 h]

theorem rowAt_t (ps : List ℚ) (rw mw i : ℕ) (r : Row) (h : rowAt ps rw mw i = some r) :
    r.t = i := by
  unfold rowAt at h
  cases h1 : rsiAt ps rw i with
  | none =>
    rw [h1] at h
    exact Option.noConfusion h
  | some x =>
    cases h2 : rsiMaAt ps rw mw i with
    | none =>
      rw [h1, h2] at h
      exact Option.noConfusion h
    | some y =>
      rw [h1, h2] at h
      cases h
      rfl

theorem simRows_split (ps : List ℚ) (rw mw k : ℕ) :
    ∃ rest, simRows ps rw mw = simRows (ps.take k) rw mw ++ rest ∧
      ∀ r ∈ rest, k ≤ r.t := by
  refine ⟨((List.range ps.length).drop k).filterMap (rowAt ps rw mw), ?_, ?_⟩
  · conv_lhs => rw [simRows, ← List.take_append_drop k (List.range ps.length)]
    rw [List.filterMap_append]
    congr 1
    rw [List.take_range, simRows, List.length_take]
    apply List.filterMap_congr
    intro i hi
    have hik : i < k := by
      have := List.mem_range.mp hi
      omega
    exact (rowAt_take ps rw mw k i hik).symm
  · intro r hr
    obtain ⟨i, hi, hsome⟩ := List.mem_filterMap.mp hr
    have ht := rowAt_t ps rw mw i r hsome
    obtain ⟨j, hj, hget⟩ := List.mem_iff_getElem.mp hi
    rw [List.getElem_drop, List.getElem_range] at hget
    omega

theorem runLoop_filter_le (rows1 rest : List Row) (cap : ℚ) (i : ℕ)
    (hrest : ∀ r ∈ rest, i + 1 ≤ r.t) :
    ((runLoop (initState cap) (rows1 ++ rest)).trades.filter (fun r => decide (r.t ≤ i)) =
        (runLoop (initState cap) rows1).trades.filter (fun r => decide (r.t ≤ i))) ∧
      ((runLoop (initState cap) (rows1 ++ rest)).log.filter (fun e => decide (e.1 ≤ i)) =
        (runLoop (initState cap) rows1).log.filter (fun e => decide (e.1 ≤ i))) := by
  cases rest with
  | nil => rw [List.append_nil]; exact ⟨rfl, rfl⟩
  | cons a rest' =>
    rcases List.eq_nil_or_concat rows1 with rfl | ⟨L, b, rfl⟩
    · obtain ⟨tN, lN, ht, hl, htm, hlm⟩ :=
        runLoop_extends ([] ++ a :: rest') (initState cap)
      constructor
      · rw [ht]
        have hnil : tN.filter (fun r => decide (r.t ≤ i)) = [] := by
          rw [List.filter_eq_nil_iff]
          intro r hr hdec
          obtain ⟨row, hrow, hteq⟩ := htm r hr
          have hge : i + 1 ≤ row.t :=
            hrest row (List.mem_of_mem_tail hrow)
          rw [hteq] at hdec
          exact absurd (of_decide_eq_true hdec) (by omega)
        show ((initState cap).trades ++ tN).filter (fun r => decide (r.t ≤ i)) = _
        rw [show (initState cap).trades = [] from rfl, List.nil_append, hnil]
        rfl
      · rw [hl]
        have hnil : lN.filter (fun e => decide (e.1 ≤ i)) = [] := by
          rw [List.filter_eq_nil_iff]
          intro e he hdec
          obtain ⟨row, hrow, hteq⟩ := hlm e he
          have hge : i + 1 ≤ row.t :=
            hrest row (List.mem_of_mem_tail hrow)
          rw [hteq] at hdec
          exact absurd (of_decide_eq_true hdec) (by omega)
        show ((initState cap).log ++ lN).filter (fun e => decide (e.1 ≤ i)) = _
        rw [show (initState cap).log = [] from rfl, List.nil_append, hnil]
        rfl
    · rw [List.concat_eq_append]
      have hshape : (L ++ [b]) ++ a :: rest' = L ++ b :: (a :: rest') := by
        rw [List.append_assoc]
        rfl
      rw [hshape, runLoop_append L b (a :: rest') (initState cap)]
      obtain ⟨tN, lN, ht, hl, htm, hlm⟩ :=
        runLoop_extends (b :: a :: rest') (runLoop (initState cap) (L ++ [b]))
      constructor
      · rw [ht, List.filter_append]
        have hnil : tN.filter (fun r => decide (r.t ≤ i)) = [] := by
          rw [List.filter_eq_nil_iff]
          intro r hr hdec
          obtain ⟨row, hrow, hteq⟩ := htm r hr
          have hge : i + 1 ≤ row.t := hrest row hrow
          rw [hteq] at hdec
          exact absurd (of_decide_eq_true hdec) (by omega)
        rw [hnil, List.append_nil]
      · rw [hl, List.filter_append]
        have hnil : lN.filter (fun e => decide (e.1 ≤ i)) = [] := by
          rw [List.filter_eq_nil_iff]
          intro e he hdec
          obtain ⟨row, hrow, hteq⟩ := hlm e he
          have hge : i + 1 ≤ row.t := hrest row hrow
          rw [hteq] at hdec
          exact absurd (of_decide_eq_true hdec) (by omega)
        rw [hnil, List.append_nil]

theorem simOut_take (ps : List ℚ) (rw mw : ℕ) (cap : ℚ) (i : ℕ) :
    ((simTrades ps rw mw cap).filter (fun r => decide (r.t ≤ i)) =
        (simTrades (ps.take (i + 1)) rw mw cap).filter (fun r => decide (r.t ≤ i))) ∧
      ((simLog ps rw mw cap).filter (fun e => decide (e.1 ≤ i)) =
        (simLog (ps.take (i + 1)) rw mw cap).filter (fun e => decide (e.1 ≤ i))) := by
  obtain ⟨rest, hsplit, hrest⟩ := simRows_split ps rw mw (i + 1)
  have hrest' : ∀ r ∈ rest, i + 1 ≤ r.t := hrest
  unfold simTrades simLog simFinal
  rw [hsplit]
  exact runLoop_filter_le (simRows (ps.take (i + 1)) rw mw) rest cap i hrest'

/-- C9: no look-ahead — if two feeds agree on bars `0..i`, the trade
records emitted at bars up to `i` and the decisions logged at bars up
to `i` coincide (altering or truncating bars after `i` changes
nothing at or before `i`). -/
theorem C9_theorem (ps₁ ps₂ : List ℚ) (rw mw : ℕ) (cap : ℚ) (i : ℕ)
    (h : ps₁.take (i + 1) = ps₂.take (i + 1)) :
    ((simTrades ps₁ rw mw cap).filter (fun r => decide (r.t ≤ i)) =
        (simTrades ps₂ rw mw cap).filter (fun r => decide (r.t ≤ i))) ∧
      ((simLog ps₁ rw mw cap).filter (fun e => decide (e.1 ≤ i)) =
        (simLog ps₂ rw mw cap).filter (fun e => decide (e.1 ≤ i))) := by
  obtain ⟨ht1, hl1⟩ := simOut_take ps₁ rw mw cap i
  obtain ⟨ht2, hl2⟩ := simOut_take ps₂ rw mw cap i
  rw [ht1, hl1, ht2, hl2, h]
  exact ⟨rfl, rfl⟩

/-- Witness for C9: a 3-bar feed against a 5-bar extension, agreeing on
bars 0..2. -/
theorem C9_witness :
    ((simTrades [(1 : ℚ), 2, 3] 14 14 100).filter (fun r => decide (r.t ≤ 2)) =
        (simTrades [(1 : ℚ), 2, 3, 4, 5] 14 14 100).filter (fun r => decide (r.t ≤ 2))) ∧
      ((simLog [(1 : ℚ), 2, 3] 14 14 100).filter (fun e => decide (e.1 ≤ 2)) =
        (simLog [(1 : ℚ), 2, 3, 4, 5] 14 14 100).filter (fun e => decide (e.1 ≤ 2))) :=
  C9_theorem [1, 2, 3] [1, 2, 3, 4, 5] 14 14 100 2 (by with_unfolding_all decide)

end Wing
